import Mathlib

/-!
# Verification of the chunked large-file upload system

Shallow embedding of the resumable chunked-upload system (React client +
Node/Express reference backend) and proofs about its behaviour.

Client-side definitions are translated from `src/lib/upload-types.ts`,
`src/lib/upload-api.ts` and the two versions of the `useChunkedUpload`
hook present in the repository; server-side definitions are translated
from `backend/server.js`.  External libraries (MySQL, the filesystem,
`crypto`, `yauzl`) are modelled explicitly: the database rows of one
session become fields of a `Session` structure, the temp file becomes a
byte list with a positional writer, the SHA-256 digest and the ZIP
parser are abstract function parameters (they are library code, not code
of this repository), and the `FOR UPDATE` row lock makes the
transactional part of finalize an atomic step.
-/

set_option maxRecDepth 10000

namespace BigFileBuddy

/-- `CHUNK_SIZE = 5 * 1024 * 1024` from `src/lib/upload-types.ts`
(the backend hard-codes the same constant in its chunk handler). -/
def CHUNK_SIZE : Nat := 5 * 1024 * 1024

/-- `MAX_CONCURRENT_UPLOADS = 3` from `src/lib/upload-types.ts`. -/
def MAX_CONCURRENT_UPLOADS : Nat := 3

/-- `MAX_RETRIES = 3` from `src/lib/upload-types.ts`. -/
def MAX_RETRIES : Nat := 3

/-- `BASE_RETRY_DELAY = 1000` ms from `src/lib/upload-types.ts`. -/
def BASE_RETRY_DELAY : Nat := 1000

/-! ## Client session-id generation (`generateUploadId`, upload-types.ts) -/

/-- JavaScript `ToInt32`: reduce an integer into `[-2^31, 2^31)`.
Used to model the `| 0`-style wrap `hash = hash & hash` and the 32-bit
left shift in `generateUploadId`. -/
def toInt32 (n : Int) : Int := (n + 2 ^ 31) % 2 ^ 32 - 2 ^ 31

/-- One iteration of the string-hash loop in `generateUploadId`:
`hash = ((hash << 5) - hash) + char; hash = hash & hash`. -/
def hashStep (h : Int) (c : Char) : Int :=
  toInt32 (toInt32 (h * 32) - h + c.toNat)

/-- The string-hash loop of `generateUploadId` over all characters,
starting from `hash = 0`. -/
def hashCode (s : String) : Int := s.data.foldl hashStep 0

/-- Lower-case digit character for bases up to 36, as produced by
JavaScript `Number.prototype.toString(base)`. -/
def digitChar (d : Nat) : Char :=
  if d < 10 then Char.ofNat (48 + d) else Char.ofNat (87 + d)

/-- Digit list of `n` in base `b`, most significant digit first, empty
for 0.  The `fuel` argument only bounds the recursion depth (any fuel
of at least the digit count, e.g. `n` itself, is enough). -/
def digitsAux (b : Nat) : Nat → Nat → List Char
  | 0, _ => []
  | _, 0 => []
  | fuel + 1, n => digitsAux b fuel (n / b) ++ [digitChar (n % b)]

/-- Base-16 digit list of a natural number (empty for 0), most
significant digit first. -/
def hexDigits (n : Nat) : List Char := digitsAux 16 n n

/-- Base-36 digit list of a natural number (empty for 0), most
significant digit first. -/
def base36Digits (n : Nat) : List Char := digitsAux 36 n n

/-- JavaScript `n.toString(16)` for a natural number. -/
def toHexString (n : Nat) : String :=
  if n = 0 then "0" else String.mk (hexDigits n)

/-- JavaScript `n.toString(36)` for a natural number. -/
def toBase36String (n : Nat) : String :=
  if n = 0 then "0" else String.mk (base36Digits n)

/-- `generateUploadId` from `src/lib/upload-types.ts`.  It hashes the
string `` `${file.name}-${file.size}-${file.lastModified}` `` and builds
`` `upload_${Math.abs(hash).toString(16)}_${Date.now().toString(36)}` ``.
`now` is the value of `Date.now()` at the moment of the call. -/
def generateUploadId (name : String) (size lastModified now : Nat) : String :=
  let str := name ++ "-" ++ toString size ++ "-" ++ toString lastModified
  "upload_" ++ toHexString (hashCode str).natAbs ++ "_" ++ toBase36String now

/-! ## Client chunk arithmetic (`calculateTotalChunks`, `extractChunk`) -/

/-- `calculateTotalChunks` from `src/lib/upload-types.ts`:
`Math.ceil(fileSize / CHUNK_SIZE)`, i.e. ceiling division. -/
def calculateTotalChunks (fileSize : Nat) : Nat :=
  (fileSize + CHUNK_SIZE - 1) / CHUNK_SIZE

/-- Length of the blob produced by `extractChunk` in
`src/lib/upload-api.ts`: `file.slice(start, min(start + CHUNK_SIZE,
file.size))` for `start = chunkIndex * CHUNK_SIZE`. -/
def extractChunkLen (fileSize chunkIndex : Nat) : Nat :=
  min (chunkIndex * CHUNK_SIZE + CHUNK_SIZE) fileSize - chunkIndex * CHUNK_SIZE

/-! ## ZIP peeking (`peekZipContents`, backend/server.js) -/

/-- What the `yauzl` ZIP parser makes of a file's bytes: either the file
is not a recognized ZIP (`yauzl.open` reports an error), or it is a ZIP
with a list of entry file names in central-directory order.  `yauzl` is
an external library, so its parse is abstract input here. -/
inductive ZipInput where
  | notZip
  | zip (entryNames : List String)
deriving DecidableEq

/-- JavaScript `String.prototype.split('/')` on a character list:
always returns at least one (possibly empty) part. -/
def splitSlash : List Char → List (List Char)
  | [] => [[]]
  | c :: rest =>
    match splitSlash rest with
    | [] => [[]]
    | p :: ps => if c = '/' then [] :: p :: ps else (c :: p) :: ps

/-- The top-level test in `peekZipContents`:
`pathParts = entry.fileName.split('/').filter(Boolean)` and the entry is
kept when `pathParts.length === 1` or
`pathParts.length === 2 && entry.fileName.endsWith('/')`. -/
def isTopLevel (name : String) : Bool :=
  let parts := (splitSlash name.data).filter (fun p => !p.isEmpty)
  decide (parts.length = 1 ∨ (parts.length = 2 ∧ name.data.getLast? = some '/'))

/-- The `entry` event loop of `peekZipContents`: for each entry, push it
if top-level, then request the next entry only while
`entries.length < maxEntries`; on the `end` event resolve with the
accumulated list. -/
def peekLoop (maxEntries : Nat) (entries : List String) : List String → List String
  | [] => entries
  | e :: rest =>
    let entries2 := if isTopLevel e then entries ++ [e] else entries
    if entries2.length < maxEntries then peekLoop maxEntries entries2 rest
    else entries2

/-- `peekZipContents(filePath, maxEntries)` from `backend/server.js`:
resolves `[]` when `yauzl.open` fails (not a valid ZIP), otherwise runs
the entry loop.  The single call site in finalize uses the default
`maxEntries = 100`. -/
def peekZipContents (maxEntries : Nat) : ZipInput → List String
  | ZipInput.notZip => []
  | ZipInput.zip es => peekLoop maxEntries [] es

/-! ## Server data model (backend/server.js + schema) -/

/-- The `uploads.status` column: `'UPLOADING' | 'PROCESSING' |
'COMPLETED' | 'FAILED'`. -/
inductive UStatus where
  | uploading
  | processing
  | completed
  | failed
deriving DecidableEq

/-- The `chunks.status` column: `'PENDING' | 'RECEIVED'`. -/
inductive CStatus where
  | pending
  | received
deriving DecidableEq

/-- The server-side state of one upload session: its `uploads` row, its
`chunks` rows (one `(chunk_index, status)` pair per row) and the bytes
of its temp file `TEMP_DIR/<uploadId>.partial`. -/
structure Session where
  filename : String
  totalSize : Nat
  totalChunks : Nat
  status : UStatus
  finalHash : Option String
  zipContents : Option (List String)
  chunks : List (Nat × CStatus)
  tempFile : List Nat
deriving DecidableEq

/-- Positional write `fd.write(data, 0, data.length, off)` on an `'r+'`
file: bytes `[off, off + data.length)` become `data`; a gap past the old
end of file is zero-filled, as Node extends the file with null bytes. -/
def writeAt (file : List Nat) (off : Nat) (data : List Nat) : List Nat :=
  let padded := file ++ List.replicate (off + data.length - file.length) 0
  padded.take off ++ data ++ padded.drop (off + data.length)

/-- `SELECT status FROM chunks WHERE upload_id = ? AND chunk_index = ?`:
the status of the first row with the given index, if any. -/
def lookupChunk (chunks : List (Nat × CStatus)) (idx : Nat) : Option CStatus :=
  (chunks.find? (fun p => p.1 == idx)).map (fun p => p.2)

/-- `UPDATE chunks SET status = 'RECEIVED' WHERE upload_id = ? AND
chunk_index = ?`: every row with the given index becomes RECEIVED
(rows with other indices are untouched; if no row matches, nothing
changes). -/
def markReceived (chunks : List (Nat × CStatus)) (idx : Nat) : List (Nat × CStatus) :=
  chunks.map (fun p => if p.1 = idx then (p.1, CStatus.received) else p)

/-- `SELECT COUNT(*) FROM chunks WHERE upload_id = ? AND status !=
'RECEIVED'`. -/
def countPending (chunks : List (Nat × CStatus)) : Nat :=
  (chunks.filter (fun p => decide (p.2 ≠ CStatus.received))).length

/-- The JSON body sent back by the chunk endpoint:
`{ success, chunkIndex, message }`. -/
structure ChunkResp where
  success : Bool
  chunkIndex : Nat
  message : String
deriving DecidableEq

/-- `POST /api/uploads/:uploadId/chunk` from `backend/server.js`, for an
existing session `s` (the 404 branch for an unknown `uploadId` and the
400 branch for a missing multipart `chunk` part are outside this
per-session model).  In source order: a COMPLETED session answers
success without touching anything; an already-RECEIVED record answers
success without touching anything; otherwise the bytes are written at
`chunkIdx * CHUNK_SIZE` and the record (if any) is set to RECEIVED.
No validation of the byte length or of the index is performed. -/
def handleChunk (s : Session) (chunkIdx : Nat) (chunkData : List Nat) :
    Session × ChunkResp :=
  if s.status = UStatus.completed then
    (s, ⟨true, chunkIdx, "Upload already completed"⟩)
  else if lookupChunk s.chunks chunkIdx = some CStatus.received then
    (s, ⟨true, chunkIdx, "Chunk already received"⟩)
  else
    ({ s with
        tempFile := writeAt s.tempFile (chunkIdx * CHUNK_SIZE) chunkData,
        chunks := markReceived s.chunks chunkIdx },
     ⟨true, chunkIdx, "Chunk uploaded successfully"⟩)

/-- The response of the transactional part of
`POST /api/uploads/:uploadId/finalize`. -/
inductive FinResp where
  | cachedCompleted (hash : Option String) (zipContents : List String)
  | conflict
  | incomplete (pendingCount : Nat)
  | started
deriving DecidableEq

/-- The transactional part of the finalize handler, executed under
`SELECT ... FOR UPDATE`, hence atomic per session: COMPLETED returns the
cached `{hash, zipContents}` (with `zip_contents ? JSON.parse : []`);
PROCESSING returns 409 Conflict; a positive pending count returns 400
with that count; otherwise the status is set to PROCESSING and the
transaction commits (`started`). -/
def finalizeTx (s : Session) : Session × FinResp :=
  if s.status = UStatus.completed then
    (s, FinResp.cachedCompleted s.finalHash (s.zipContents.getD []))
  else if s.status = UStatus.processing then
    (s, FinResp.conflict)
  else if 0 < countPending s.chunks then
    (s, FinResp.incomplete (countPending s.chunks))
  else
    ({ s with status := UStatus.processing }, FinResp.started)

/-- The post-commit processing of the winning finalize call, on its
success path: hash the temp file, peek inside it as a ZIP (call-site
`maxEntries` default 100), rename it to the final path (the bytes are
unchanged by the move), and persist COMPLETED with the results.
`sha` models the streaming SHA-256 of `crypto` and `parse` the `yauzl`
ZIP parse: both are external libraries applied to the file's bytes. -/
def finalizeProcess (sha : List Nat → String) (parse : List Nat → ZipInput)
    (s : Session) : Session :=
  { s with
      status := UStatus.completed,
      finalHash := some (sha s.tempFile),
      zipContents := some (peekZipContents 100 (parse s.tempFile)) }

/-- One atomic event in a race of concurrent finalize calls on a single
session: `call` is the transactional part of one finalize request (made
atomic by the `FOR UPDATE` row lock), `proc` is the post-commit
processing continuation of a call that committed PROCESSING (it runs
only while the session is PROCESSING; in any other status the event is
a no-op, since the code only reaches it right after committing
PROCESSING). -/
inductive FAction where
  | call
  | proc
deriving DecidableEq

/-- Run an interleaving of finalize transactions and the winner's
processing continuation against one session, collecting the response of
every finalize call in order. -/
def runFinalize (sha : List Nat → String) (parse : List Nat → ZipInput) :
    Session → List FAction → Session × List FinResp
  | s, [] => (s, [])
  | s, FAction.call :: rest =>
    let p := finalizeTx s
    let q := runFinalize sha parse p.1 rest
    (q.1, p.2 :: q.2)
  | s, FAction.proc :: rest =>
    runFinalize sha parse
      (if s.status = UStatus.processing then finalizeProcess sha parse s else s) rest

/-- The cached COMPLETED result that the winning finalize persists for a
temp file with bytes `t`: its hash and its top-level ZIP listing. -/
def cachedResult (sha : List Nat → String) (parse : List Nat → ZipInput)
    (t : List Nat) : FinResp :=
  FinResp.cachedCompleted (some (sha t)) (peekZipContents 100 (parse t))

/-- A single server-side step on one session's state: a chunk request,
the transactional part of a finalize request, the winner's post-commit
processing on success, or the winner's post-commit failure path
(`UPDATE uploads SET status = 'FAILED'`). -/
inductive Step where
  | chunk (idx : Nat) (data : List Nat)
  | finalizeCall
  | processOk (sha : List Nat → String) (parse : List Nat → ZipInput)
  | processFail

/-- Apply one step to a session's state. -/
def applyStep (s : Session) : Step → Session
  | Step.chunk idx data => (handleChunk s idx data).1
  | Step.finalizeCall => (finalizeTx s).1
  | Step.processOk sha parse =>
    if s.status = UStatus.processing then finalizeProcess sha parse s else s
  | Step.processFail =>
    if s.status = UStatus.processing then { s with status := UStatus.failed } else s

/-- `POST /api/uploads/init` for a fresh `uploadId`: insert the
`uploads` row with status UPLOADING, one PENDING `chunks` row per index
in `[0, totalChunks)`, and pre-allocate the temp file to `fileSize`
bytes (`open('w')` then `truncate(fileSize)` zero-fills it). -/
def initSession (filename : String) (fileSize totalChunks : Nat) : Session :=
  { filename := filename
    totalSize := fileSize
    totalChunks := totalChunks
    status := UStatus.uploading
    finalHash := none
    zipContents := none
    chunks := (List.range totalChunks).map (fun i => (i, CStatus.pending))
    tempFile := List.replicate fileSize 0 }

/-- Session states reachable through the server's API: created by a
fresh handshake and evolved by chunk requests, finalize transactions and
the finalize continuations. -/
inductive Reachable : Session → Prop where
  | init (filename : String) (fileSize totalChunks : Nat) :
      Reachable (initSession filename fileSize totalChunks)
  | step (s : Session) (a : Step) : Reachable s → Reachable (applyStep s a)

/-! ## Orphan sweep (`cleanupOrphanedUploads`, backend/server.js) -/

/-- The columns of an `uploads` row that the orphan sweep reads:
`upload_id`, `status`, `updated_at` (modelled as a natural-number
timestamp). -/
structure SweepRow where
  uploadId : String
  status : UStatus
  updatedAt : Nat
deriving DecidableEq

/-- The sweep's selection:
`status IN ('UPLOADING', 'FAILED') AND updated_at <
DATE_SUB(NOW(), INTERVAL cleanupHours HOUR)`, i.e. the row is aged past
the threshold and in UPLOADING or FAILED status. -/
def isOrphan (threshold now : Nat) (r : SweepRow) : Bool :=
  decide ((r.status = UStatus.uploading ∨ r.status = UStatus.failed) ∧
    r.updatedAt + threshold < now)

/-- `cleanupOrphanedUploads` from `backend/server.js`: for every
selected orphan it deletes the temp file, the `chunks` rows and the
`uploads` row, so the surviving table holds exactly the non-selected
rows. -/
def cleanupOrphanedUploads (threshold now : Nat) (db : List SweepRow) :
    List SweepRow :=
  db.filter (fun r => !isOrphan threshold now r)

/-! ## Client upload scheduler (`useChunkedUpload` hooks) -/

/-- Client-side chunk status (`ChunkStatus` in upload-types.ts). -/
inductive CCStatus where
  | pending
  | uploading
  | success
  | error
deriving DecidableEq

/-- The fields of a client `ChunkState` that drive the queue logic. -/
structure ClientChunk where
  index : Nat
  status : CCStatus
  retries : Nat
deriving DecidableEq

/-- The dispatch filter shared by both hook versions:
`c.status === 'pending' || (c.status === 'error' && c.retries <
MAX_RETRIES)`. -/
def retryEligible (c : ClientChunk) : Bool :=
  decide (c.status = CCStatus.pending ∨
    (c.status = CCStatus.error ∧ c.retries < MAX_RETRIES))

/-- What one pass of a `processUploadQueue` decides to do. -/
inductive QueueAction where
  | finalizeNow
  | sessionFailed
  | dispatch (idxs : List Nat)
deriving DecidableEq

/-- `processUploadQueue` of the active hook
`src/hooks/use-chunked-upload.ts` (the one `@/hooks/use-chunked-upload`
resolves to): it finalizes when the success count equals `totalChunks`,
and otherwise dispatches up to
`MAX_CONCURRENT_UPLOADS - activeUploads.size` retry-eligible chunks,
each via a direct `uploadChunk` call (no `withRetry` wrapper).  It has
no branch that marks the session failed. -/
def activeQueueStep (chunks : List ClientChunk) (totalChunks activeCount : Nat) :
    QueueAction :=
  let pending := chunks.filter retryEligible
  let successCount :=
    (chunks.filter (fun c => decide (c.status = CCStatus.success))).length
  if successCount = totalChunks then QueueAction.finalizeNow
  else QueueAction.dispatch
    ((pending.take (MAX_CONCURRENT_UPLOADS - activeCount)).map ClientChunk.index)

/-- `processUploadQueue` of the reference hook version shipped in the
repository (src/unnamed/part_001): when no chunk is retry-eligible it
finalizes if every chunk succeeded and otherwise marks the session
failed (`'Some chunks failed to upload after max retries'`); when
retry-eligible chunks remain it dispatches up to
`min(MAX_CONCURRENT_UPLOADS - activeUploads.size, pending.length)` of
them, each wrapped in `withRetry(MAX_RETRIES, BASE_RETRY_DELAY)`. -/
def refQueueStep (chunks : List ClientChunk) (activeCount : Nat) : QueueAction :=
  let pendingIdx := (chunks.filter retryEligible).map ClientChunk.index
  if pendingIdx.length = 0 then
    if chunks.all (fun c => decide (c.status = CCStatus.success)) then
      QueueAction.finalizeNow
    else QueueAction.sessionFailed
  else QueueAction.dispatch
    (pendingIdx.take (min (MAX_CONCURRENT_UPLOADS - activeCount) pendingIdx.length))

/-- The delay before retry attempt `attempt + 1` computed by `withRetry`
in `src/lib/upload-api.ts`: `baseDelay * 2 ** attempt + Math.random() *
500` (exponential backoff plus jitter `< 500` ms).  In the repository it
is invoked only by the part_001 hook version, never by the active
hook. -/
def retryDelay (baseDelay attempt jitter : Nat) : Nat :=
  baseDelay * 2 ^ attempt + jitter

/-! ## Spec-side definitions and concrete instances -/

/-- Modelled from the spec (section 4.2 / interface contract): the byte
length the spec says the server must require for chunk `idx` of a
session — `chunkSize` for every index but the last, and the remainder
`totalSize − (totalChunks − 1) × chunkSize` for the last index.  The
chunk handler in `backend/server.js` contains no such check; this
definition exists only to state that claim. -/
def specExpectedChunkLen (totalSize totalChunks idx : Nat) : Nat :=
  if idx + 1 = totalChunks then totalSize - (totalChunks - 1) * CHUNK_SIZE
  else CHUNK_SIZE

/-- A one-chunk session (`totalSize = 10`) with its record still
PENDING and its temp file pre-allocated, used to exercise the chunk
handler on a request of the wrong byte length. -/
def shortChunkSess : Session :=
  { filename := "a.zip"
    totalSize := 10
    totalChunks := 1
    status := UStatus.uploading
    finalHash := none
    zipContents := none
    chunks := [(0, CStatus.pending)]
    tempFile := List.replicate 10 0 }

/-- A one-chunk session whose single record is RECEIVED: fully received
and still UPLOADING, ready to be finalized. -/
def fullyReceivedSess : Session :=
  { filename := "a.zip"
    totalSize := 4
    totalChunks := 1
    status := UStatus.uploading
    finalHash := none
    zipContents := none
    chunks := [(0, CStatus.received)]
    tempFile := [1, 2, 3, 4] }

/-- A one-chunk session used to exercise the chunk handler on an
out-of-range index. -/
def oneChunkSess : Session :=
  { filename := "a.zip"
    totalSize := 10
    totalChunks := 1
    status := UStatus.uploading
    finalHash := none
    zipContents := none
    chunks := [(0, CStatus.pending)]
    tempFile := List.replicate 10 0 }

/-- Client chunk states after index 0 has exhausted its retries
(`status = error`, `retries = MAX_RETRIES`) while index 1 succeeded. -/
def exhaustedChunks : List ClientChunk :=
  [⟨0, CCStatus.error, 3⟩, ⟨1, CCStatus.success, 0⟩]

/-- An aged PROCESSING row: `updatedAt = 0`, far past any threshold. -/
def agedProcessingRow : SweepRow :=
  { uploadId := "upload_1", status := UStatus.processing, updatedAt := 0 }

/-- An aged UPLOADING row. -/
def agedUploadingRow : SweepRow :=
  { uploadId := "upload_2", status := UStatus.uploading, updatedAt := 0 }

/-- A two-row uploads table for exercising the orphan sweep. -/
def sweepDb : List SweepRow := [agedProcessingRow, agedUploadingRow]

/-! ## Helper lemmas -/

/-- Looking up an index after `markReceived` on that index yields
RECEIVED whenever a record for the index exists. -/
theorem lookupChunk_markReceived (chunks : List (Nat × CStatus)) (idx : Nat)
    (c : CStatus) (h : lookupChunk chunks idx = some c) :
    lookupChunk (markReceived chunks idx) idx = some CStatus.received := by
  induction chunks with
  | nil => simp [lookupChunk] at h
  | cons p rest ih =>
    by_cases hp : p.1 = idx
    · simp [lookupChunk, markReceived, List.find?, hp]
    · simp only [lookupChunk, markReceived, List.map_cons, if_neg hp] at h ⊢
      rw [List.find?_cons_of_neg _ (by simpa using hp)] at h ⊢
      exact ih h

/-- Peeling one record off the pending count. -/
theorem countPending_cons (p : Nat × CStatus) (l : List (Nat × CStatus)) :
    countPending (p :: l) =
      (if p.2 = CStatus.received then 0 else 1) + countPending l := by
  by_cases hr : p.2 = CStatus.received <;>
    simp [countPending, List.filter_cons, hr] <;> omega

/-- `markReceived` never increases the pending count. -/
theorem countPending_markReceived_le (chunks : List (Nat × CStatus)) (idx : Nat) :
    countPending (markReceived chunks idx) ≤ countPending chunks := by
  induction chunks with
  | nil => simp [countPending, markReceived]
  | cons p rest ih =>
    have hmr : markReceived (p :: rest) idx
        = (if p.1 = idx then (p.1, CStatus.received) else p)
            :: markReceived rest idx := rfl
    rw [hmr, countPending_cons, countPending_cons]
    by_cases hp : p.1 = idx <;> by_cases hr : p.2 = CStatus.received <;>
      simp [hp, hr] <;> omega

/-- If no record for `idx` exists, `lookupChunk` returns `none`. -/
theorem lookupChunk_eq_none (chunks : List (Nat × CStatus)) (idx : Nat)
    (h : ∀ p ∈ chunks, p.1 ≠ idx) : lookupChunk chunks idx = none := by
  have hfind : List.find? (fun p => p.1 == idx) chunks = none :=
    List.find?_eq_none.mpr (fun p hp => by simpa using h p hp)
  simp [lookupChunk, hfind]

/-- If no record for `idx` exists, `markReceived` changes nothing. -/
theorem markReceived_eq_of_absent (chunks : List (Nat × CStatus)) (idx : Nat)
    (h : ∀ p ∈ chunks, p.1 ≠ idx) : markReceived chunks idx = chunks := by
  induction chunks with
  | nil => rfl
  | cons p rest ih =>
    simp only [markReceived, List.map_cons, if_neg (h p (by simp))]
    rw [show List.map (fun p => if p.1 = idx then (p.1, CStatus.received) else p) rest
        = markReceived rest idx from rfl]
    rw [ih (fun q hq => h q (by simp [hq]))]

/-- A chunk request on a non-COMPLETED session whose record is already
RECEIVED is a pure no-op answered with success. -/
theorem handleChunk_received (s1 : Session) (idx : Nat) (data : List Nat)
    (hst : s1.status ≠ UStatus.completed)
    (hl : lookupChunk s1.chunks idx = some CStatus.received) :
    handleChunk s1 idx data = (s1, ⟨true, idx, "Chunk already received"⟩) := by
  simp only [handleChunk]
  rw [if_neg hst, if_pos hl]

/-- Length of a positional write: the file grows exactly to cover the
written range. -/
theorem writeAt_length (file : List Nat) (off : Nat) (data : List Nat) :
    (writeAt file off data).length = max file.length (off + data.length) := by
  simp only [writeAt, List.length_append, List.length_take, List.length_drop,
    List.length_replicate]
  omega

/-- The entry loop never exceeds the bound when entered strictly below
it. -/
theorem peekLoop_length_le (maxEntries : Nat) :
    ∀ (es entries : List String), entries.length < maxEntries →
      (peekLoop maxEntries entries es).length ≤ maxEntries := by
  intro es
  induction es with
  | nil =>
    intro entries h
    simpa [peekLoop] using Nat.le_of_lt h
  | cons e rest ih =>
    intro entries h
    simp only [peekLoop]
    by_cases he : isTopLevel e = true
    · rw [if_pos he]
      by_cases hlt : (entries ++ [e]).length < maxEntries
      · rw [if_pos hlt]
        exact ih (entries ++ [e]) hlt
      · rw [if_neg hlt]
        have hlen : (entries ++ [e]).length = entries.length + 1 := by simp
        omega
    · rw [if_neg he]
      by_cases hlt : entries.length < maxEntries
      · rw [if_pos hlt]
        exact ih entries hlt
      · omega

/-- In every reachable session state, PROCESSING or COMPLETED status
implies a zero pending count: the server only commits PROCESSING after
the pending count check, records never revert, and the continuations do
not touch records. -/
theorem reachable_processing_pending_zero (s : Session) (h : Reachable s) :
    (s.status = UStatus.processing ∨ s.status = UStatus.completed) →
    countPending s.chunks = 0 := by
  induction h with
  | init filename fileSize totalChunks =>
    intro hst
    simp [initSession] at hst
  | step s a hs ih =>
    intro hst
    cases a with
    | chunk idx data =>
      simp only [applyStep, handleChunk] at hst ⊢
      by_cases h1 : s.status = UStatus.completed
      · simp only [h1, if_pos] at hst ⊢
        exact ih (Or.inr h1)
      · simp only [if_neg h1] at hst ⊢
        by_cases h2 : lookupChunk s.chunks idx = some CStatus.received
        · simp only [h2, if_pos] at hst ⊢
          exact ih hst
        · simp only [if_neg h2] at hst ⊢
          have : countPending s.chunks = 0 := ih hst
          have hle := countPending_markReceived_le s.chunks idx
          omega
    | finalizeCall =>
      simp only [applyStep, finalizeTx] at hst ⊢
      by_cases h1 : s.status = UStatus.completed
      · simp only [h1, if_pos] at hst ⊢
        exact ih (Or.inr h1)
      · simp only [if_neg h1] at hst ⊢
        by_cases h2 : s.status = UStatus.processing
        · simp only [h2, if_pos] at hst ⊢
          exact ih (Or.inl h2)
        · simp only [if_neg h2] at hst ⊢
          by_cases h3 : 0 < countPending s.chunks
          · simp only [h3, if_pos] at hst ⊢
            exact absurd hst (by rcases hst with h | h <;> simp_all)
          · simp only [if_neg h3] at hst ⊢
            omega
    | processOk sha parse =>
      simp only [applyStep] at hst ⊢
      by_cases h1 : s.status = UStatus.processing
      · simp only [h1, if_pos, finalizeProcess] at hst ⊢
        exact ih (Or.inl h1)
      · simp only [if_neg h1] at hst ⊢
        exact ih hst
    | processFail =>
      simp only [applyStep] at hst ⊢
      by_cases h1 : s.status = UStatus.processing
      · simp only [h1, if_pos] at hst ⊢
        simp at hst
      · simp only [if_neg h1] at hst ⊢
        exact ih hst

/-- From a COMPLETED session every finalize call answers the cached
result and the state never changes. -/
theorem runFinalize_completed (sha : List Nat → String) (parse : List Nat → ZipInput) :
    ∀ (acts : List FAction) (s : Session), s.status = UStatus.completed →
      (runFinalize sha parse s acts).1 = s ∧
      ∀ r ∈ (runFinalize sha parse s acts).2,
        r = FinResp.cachedCompleted s.finalHash (s.zipContents.getD []) := by
  intro acts
  induction acts with
  | nil =>
    intro s hs
    simp [runFinalize]
  | cons a rest ih =>
    intro s hs
    cases a with
    | call =>
      have htx : finalizeTx s
          = (s, FinResp.cachedCompleted s.finalHash (s.zipContents.getD [])) := by
        simp only [finalizeTx]
        rw [if_pos hs]
      obtain ⟨h1, h2⟩ := ih s hs
      simp only [runFinalize, htx]
      refine ⟨h1, ?_⟩
      intro r hr
      rcases List.mem_cons.mp hr with hr | hr
      · exact hr
      · exact h2 r hr
    | proc =>
      have hne : s.status ≠ UStatus.processing := by
        rw [hs]
        intro hcon
        cases hcon
      simp only [runFinalize, if_neg hne]
      exact ih s hs

/-- From a PROCESSING session with temp bytes `t`, no further finalize
call ever starts processing; every response is Conflict or the cached
result computed from `t`. -/
theorem runFinalize_processing (sha : List Nat → String) (parse : List Nat → ZipInput) :
    ∀ (acts : List FAction) (s : Session),
      s.status = UStatus.processing →
      ((runFinalize sha parse s acts).2.filter
          (fun r => decide (r = FinResp.started))).length = 0 ∧
      ∀ r ∈ (runFinalize sha parse s acts).2,
        r = FinResp.conflict ∨ r = cachedResult sha parse s.tempFile := by
  intro acts
  induction acts with
  | nil =>
    intro s hs
    simp [runFinalize]
  | cons a rest ih =>
    intro s hs
    cases a with
    | call =>
      have hnc : s.status ≠ UStatus.completed := by
        rw [hs]
        intro hcon
        cases hcon
      have htx : finalizeTx s = (s, FinResp.conflict) := by
        simp only [finalizeTx]
        rw [if_neg hnc, if_pos hs]
      obtain ⟨h1, h2⟩ := ih s hs
      simp only [runFinalize, htx]
      constructor
      · simpa using h1
      · intro r hr
        rcases List.mem_cons.mp hr with hr | hr
        · exact Or.inl hr
        · exact h2 r hr
    | proc =>
      simp only [runFinalize, if_pos hs]
      have hcomp : (finalizeProcess sha parse s).status = UStatus.completed := rfl
      obtain ⟨h1, h2⟩ := runFinalize_completed sha parse rest (finalizeProcess sha parse s) hcomp
      constructor
      · rw [List.length_eq_zero, List.filter_eq_nil]
        intro r hr
        rw [h2 r hr]
        simp [cachedResult, finalizeProcess]
      · intro r hr
        rw [h2 r hr]
        exact Or.inr rfl

/-- From a fully-received UPLOADING session, a race of finalize calls
produces exactly one `started` (when at least one call occurs) and every
other response is Conflict or the cached result of the session's temp
bytes. -/
theorem runFinalize_uploading (sha : List Nat → String) (parse : List Nat → ZipInput) :
    ∀ (acts : List FAction) (s : Session),
      s.status = UStatus.uploading → countPending s.chunks = 0 →
      ((runFinalize sha parse s acts).2.filter
          (fun r => decide (r = FinResp.started))).length
        = (if FAction.call ∈ acts then 1 else 0) ∧
      ∀ r ∈ (runFinalize sha parse s acts).2,
        r = FinResp.started ∨ r = FinResp.conflict ∨
          r = cachedResult sha parse s.tempFile := by
  intro acts
  induction acts with
  | nil =>
    intro s hs hp
    simp [runFinalize]
  | cons a rest ih =>
    intro s hs hp
    cases a with
    | call =>
      have hnc : s.status ≠ UStatus.completed := by
        rw [hs]
        intro hcon
        cases hcon
      have hnp : s.status ≠ UStatus.processing := by
        rw [hs]
        intro hcon
        cases hcon
      have hnpend : ¬ 0 < countPending s.chunks := by omega
      have htx : finalizeTx s
          = ({ s with status := UStatus.processing }, FinResp.started) := by
        simp only [finalizeTx]
        rw [if_neg hnc, if_neg hnp, if_neg hnpend]
      obtain ⟨h1, h2⟩ :=
        runFinalize_processing sha parse rest { s with status := UStatus.processing } rfl
      simp only [runFinalize, htx]
      constructor
      · simp only [List.filter_cons]
        simp [h1]
      · intro r hr
        rcases List.mem_cons.mp hr with hr | hr
        · exact Or.inl hr
        · rcases h2 r hr with h | h
          · exact Or.inr (Or.inl h)
          · exact Or.inr (Or.inr h)
    | proc =>
      have hnp : s.status ≠ UStatus.processing := by
        rw [hs]
        intro hcon
        cases hcon
      have hmem : (FAction.call ∈ FAction.proc :: rest) = (FAction.call ∈ rest) := by
        simp
      simp only [runFinalize, if_neg hnp, hmem]
      exact ih s hs hp

/-! ## Claim theorems -/

/-- Claim C2 (code behaviour at the failing input): `generateUploadId`
is not a deterministic function of `(filename, size, lastModified)` —
the same file triple hashed at two different `Date.now()` values yields
two different session ids, because the id ends in
`Date.now().toString(36)`.  This defeats the documented purpose
("resumable", resume-on-reselect) of the id. -/
theorem generateUploadId_time_dependent :
    generateUploadId "test.zip" 100 1700000000000 1000 ≠
      generateUploadId "test.zip" 100 1700000000000 2000 := by decide

/-- Claim C6 (code behaviour at the failing input): with chunk 0 in
`error` status at `retries = MAX_RETRIES` and chunk 1 succeeded (2
chunks total, nothing in flight), the active hook's queue pass
dispatches nothing and neither finalizes nor fails the session — the
upload stalls, no aggregate session-failure is raised and no retry with
backoff happens (`uploadChunk` is called without `withRetry` there).
The repository's part_001 version of the same hook marks the session
failed on exactly this input, as the claim describes. -/
theorem retry_exhaustion_stalls :
    activeQueueStep exhaustedChunks 2 0 = QueueAction.dispatch [] ∧
    refQueueStep exhaustedChunks 0 = QueueAction.sessionFailed := by decide

/-- Claim C9: for every positive file size, `totalChunks` is the
ceiling `⌈totalSize / chunkSize⌉` and the last chunk produced by
`extractChunk` satisfies `totalSize = (totalChunks − 1) × chunkSize +
lastChunkSize` with `0 < lastChunkSize ≤ chunkSize`. -/
theorem chunk_count_decomposition (fileSize : Nat) (h : 0 < fileSize) :
    fileSize = (calculateTotalChunks fileSize - 1) * CHUNK_SIZE
        + extractChunkLen fileSize (calculateTotalChunks fileSize - 1) ∧
    0 < extractChunkLen fileSize (calculateTotalChunks fileSize - 1) ∧
    extractChunkLen fileSize (calculateTotalChunks fileSize - 1) ≤ CHUNK_SIZE := by
  simp only [calculateTotalChunks, extractChunkLen, CHUNK_SIZE]
  omega

/-- Claim C9 witness: the spec's scenario, `totalSize = 12_582_912`
with `chunkSize = 5_242_880` gives `totalChunks = 3` and last-chunk
length `2_097_152`. -/
theorem chunk_count_decomposition_witness :
    0 < 12582912 ∧
    (12582912 = (calculateTotalChunks 12582912 - 1) * CHUNK_SIZE
        + extractChunkLen 12582912 (calculateTotalChunks 12582912 - 1) ∧
      0 < extractChunkLen 12582912 (calculateTotalChunks 12582912 - 1) ∧
      extractChunkLen 12582912 (calculateTotalChunks 12582912 - 1) ≤ CHUNK_SIZE) ∧
    calculateTotalChunks 12582912 = 3 ∧
    extractChunkLen 12582912 2 = 2097152 :=
  ⟨by decide, chunk_count_decomposition 12582912 (by decide), by decide, by decide⟩

/-- Claim C3 counterexample: the claim says a chunk request whose byte
length differs from the expected length for its index is rejected with
no state mutated.  On a one-chunk session of `totalSize = 10` (expected
length 10 for index 0), a 3-byte body is accepted (`success: true`) and
the state is mutated, refuting the claim. -/
theorem chunk_length_not_validated_cex :
    (List.length ([1, 2, 3] : List Nat)
        ≠ specExpectedChunkLen shortChunkSess.totalSize shortChunkSess.totalChunks 0) ∧
    ((handleChunk shortChunkSess 0 [1, 2, 3]).2).success = true ∧
    (handleChunk shortChunkSess 0 [1, 2, 3]).1 ≠ shortChunkSess := by decide

/-- Claim C3 (amended): the server performs no per-index byte-length
validation.  For every non-COMPLETED session whose record for the index
is not already RECEIVED, a chunk request with a body of any byte length
is accepted as success, its bytes are written positionally at
`index × chunkSize`, and the record set for the index becomes
RECEIVED. -/
theorem chunk_any_length_accepted (s : Session) (idx : Nat) (data : List Nat)
    (hst : s.status ≠ UStatus.completed)
    (hrec : lookupChunk s.chunks idx ≠ some CStatus.received) :
    ((handleChunk s idx data).2).success = true ∧
    ((handleChunk s idx data).2).chunkIndex = idx ∧
    ((handleChunk s idx data).1).tempFile
      = writeAt s.tempFile (idx * CHUNK_SIZE) data ∧
    ((handleChunk s idx data).1).chunks = markReceived s.chunks idx := by
  simp only [handleChunk]
  rw [if_neg hst, if_neg hrec]
  exact ⟨rfl, rfl, rfl, rfl⟩

/-- Claim C3 witness: the amended behaviour at the concrete wrong-length
request of the counterexample. -/
theorem chunk_any_length_accepted_witness :
    (shortChunkSess.status ≠ UStatus.completed ∧
      lookupChunk shortChunkSess.chunks 0 ≠ some CStatus.received) ∧
    (((handleChunk shortChunkSess 0 [1, 2, 3]).2).success = true ∧
      ((handleChunk shortChunkSess 0 [1, 2, 3]).2).chunkIndex = 0 ∧
      ((handleChunk shortChunkSess 0 [1, 2, 3]).1).tempFile
        = writeAt shortChunkSess.tempFile (0 * CHUNK_SIZE) [1, 2, 3] ∧
      ((handleChunk shortChunkSess 0 [1, 2, 3]).1).chunks
        = markReceived shortChunkSess.chunks 0) :=
  ⟨⟨by decide, by decide⟩,
    chunk_any_length_accepted shortChunkSess 0 [1, 2, 3] (by decide) (by decide)⟩

/-- Claim C4: chunk application is idempotent.  Uploading index `idx`
with a PENDING record flips that record to RECEIVED, and a second
identical upload is a pure no-op: it returns the same state unchanged
(file bytes included) with a success response, so the ledger sees
exactly one PENDING→RECEIVED transition. -/
theorem chunk_idempotent (s : Session) (idx : Nat) (data : List Nat)
    (hst : s.status ≠ UStatus.completed)
    (hrec : lookupChunk s.chunks idx = some CStatus.pending) :
    lookupChunk ((handleChunk s idx data).1).chunks idx = some CStatus.received ∧
    handleChunk ((handleChunk s idx data).1) idx data
      = ((handleChunk s idx data).1, ⟨true, idx, "Chunk already received"⟩) := by
  have hne : lookupChunk s.chunks idx ≠ some CStatus.received := by
    rw [hrec]
    intro hcon
    cases hcon
  have hfst : (handleChunk s idx data).1
      = { s with
            tempFile := writeAt s.tempFile (idx * CHUNK_SIZE) data,
            chunks := markReceived s.chunks idx } := by
    simp only [handleChunk]
    rw [if_neg hst, if_neg hne]
  have hlook : lookupChunk ((handleChunk s idx data).1).chunks idx
      = some CStatus.received := by
    rw [hfst]
    exact lookupChunk_markReceived s.chunks idx CStatus.pending hrec
  refine ⟨hlook, ?_⟩
  have hst2 : ((handleChunk s idx data).1).status ≠ UStatus.completed := by
    rw [hfst]
    exact hst
  exact handleChunk_received ((handleChunk s idx data).1) idx data hst2 hlook

/-- Claim C4 witness: idempotent application on a concrete one-chunk
session. -/
theorem chunk_idempotent_witness :
    (oneChunkSess.status ≠ UStatus.completed ∧
      lookupChunk oneChunkSess.chunks 0 = some CStatus.pending) ∧
    (lookupChunk ((handleChunk oneChunkSess 0 [9, 9, 9]).1).chunks 0
        = some CStatus.received ∧
      handleChunk ((handleChunk oneChunkSess 0 [9, 9, 9]).1) 0 [9, 9, 9]
        = ((handleChunk oneChunkSess 0 [9, 9, 9]).1,
            ⟨true, 0, "Chunk already received"⟩)) :=
  ⟨⟨by decide, by decide⟩,
    chunk_idempotent oneChunkSess 0 [9, 9, 9] (by decide) (by decide)⟩

/-- Claim C5: on every reachable session that still has a PENDING chunk
record, finalize fails with `Incomplete` carrying exactly the session's
pending count (strictly positive by hypothesis) and returns the state
unchanged — in particular no UPLOADING→PROCESSING transition happens. -/
theorem finalize_incomplete (s : Session) (h : Reachable s)
    (hp : 0 < countPending s.chunks) :
    finalizeTx s = (s, FinResp.incomplete (countPending s.chunks)) := by
  have h1 : s.status ≠ UStatus.completed := by
    intro hc
    have := reachable_processing_pending_zero s h (Or.inr hc)
    omega
  have h2 : s.status ≠ UStatus.processing := by
    intro hc
    have := reachable_processing_pending_zero s h (Or.inl hc)
    omega
  simp only [finalizeTx]
  rw [if_neg h1, if_neg h2, if_pos hp]

/-- Claim C5 witness: a freshly created two-chunk session has pending
count 2 and finalize answers `Incomplete 2` leaving it untouched. -/
theorem finalize_incomplete_witness :
    0 < countPending (initSession "a.zip" 10 2).chunks ∧
    finalizeTx (initSession "a.zip" 10 2)
      = (initSession "a.zip" 10 2,
          FinResp.incomplete (countPending (initSession "a.zip" 10 2).chunks)) :=
  ⟨by decide, finalize_incomplete _ (Reachable.init "a.zip" 10 2) (by decide)⟩

/-- Claim C1: on a fully-received UPLOADING session, any interleaving of
N finalize transactions (each atomic under the `FOR UPDATE` row lock)
with the winner's post-commit processing yields exactly one `started`
response — one caller drives UPLOADING→PROCESSING→COMPLETED — while
every other caller observes Conflict or the identical cached COMPLETED
result `{hash, contentListing}` computed from the session's temp
bytes. -/
theorem finalize_at_most_one (sha : List Nat → String) (parse : List Nat → ZipInput)
    (s : Session) (acts : List FAction)
    (hst : s.status = UStatus.uploading) (hp : countPending s.chunks = 0)
    (hcall : FAction.call ∈ acts) :
    ((runFinalize sha parse s acts).2.filter
        (fun r => decide (r = FinResp.started))).length = 1 ∧
    ∀ r ∈ (runFinalize sha parse s acts).2, r ≠ FinResp.started →
      r = FinResp.conflict ∨ r = cachedResult sha parse s.tempFile := by
  obtain ⟨h1, h2⟩ := runFinalize_uploading sha parse acts s hst hp
  constructor
  · rw [h1, if_pos hcall]
  · intro r hr hne
    rcases h2 r hr with h | h | h
    · exact absurd h hne
    · exact Or.inl h
    · exact Or.inr h

/-- Claim C1 witness: three finalize calls racing on a concrete
fully-received one-chunk session, the winner's processing interleaved,
with concrete hash and parse functions for the external libraries. -/
theorem finalize_at_most_one_witness :
    (fullyReceivedSess.status = UStatus.uploading ∧
      countPending fullyReceivedSess.chunks = 0 ∧
      FAction.call ∈ [FAction.call, FAction.call, FAction.proc, FAction.call]) ∧
    (((runFinalize (fun _ => "h") (fun _ => ZipInput.notZip) fullyReceivedSess
            [FAction.call, FAction.call, FAction.proc, FAction.call]).2.filter
          (fun r => decide (r = FinResp.started))).length = 1 ∧
      ∀ r ∈ (runFinalize (fun _ => "h") (fun _ => ZipInput.notZip) fullyReceivedSess
          [FAction.call, FAction.call, FAction.proc, FAction.call]).2,
        r ≠ FinResp.started →
          r = FinResp.conflict ∨
            r = cachedResult (fun _ => "h") (fun _ => ZipInput.notZip)
                fullyReceivedSess.tempFile) :=
  ⟨⟨by decide, by decide, by decide⟩,
    finalize_at_most_one (fun _ => "h") (fun _ => ZipInput.notZip) fullyReceivedSess
      [FAction.call, FAction.call, FAction.proc, FAction.call]
      (by decide) (by decide) (by decide)⟩

/-- Claim C7 counterexample: the claim says a session idle past the
threshold in any non-terminal status — UPLOADING *or PROCESSING* — or
FAILED is deleted.  The sweep's query selects only
`status IN ('UPLOADING', 'FAILED')`: an aged PROCESSING row survives
the sweep, refuting the claim. -/
theorem sweep_skips_processing_cex :
    agedProcessingRow.updatedAt + 24 < 100 ∧
    agedProcessingRow.status = UStatus.processing ∧
    agedProcessingRow ∈ cleanupOrphanedUploads 24 100 [agedProcessingRow] := by
  decide

/-- Claim C7 (amended): the orphan sweep deletes a session if and only
if it is idle past the age threshold and its status is UPLOADING or
FAILED; a COMPLETED session is never deleted regardless of age, and
neither is a PROCESSING one. -/
theorem sweep_deletes_iff_aged_uploading_or_failed
    (threshold now : Nat) (db : List SweepRow) (r : SweepRow) (hr : r ∈ db) :
    (r ∉ cleanupOrphanedUploads threshold now db ↔
      ((r.status = UStatus.uploading ∨ r.status = UStatus.failed) ∧
        r.updatedAt + threshold < now)) ∧
    (r.status = UStatus.completed → r ∈ cleanupOrphanedUploads threshold now db) ∧
    (r.status = UStatus.processing → r ∈ cleanupOrphanedUploads threshold now db) := by
  have hmem : r ∈ cleanupOrphanedUploads threshold now db ↔
      ¬ ((r.status = UStatus.uploading ∨ r.status = UStatus.failed) ∧
        r.updatedAt + threshold < now) := by
    simp only [cleanupOrphanedUploads, List.mem_filter, hr, isOrphan, true_and,
      Bool.not_eq_true', decide_eq_false_iff_not, not_and, not_or, not_lt]
  refine ⟨?_, ?_, ?_⟩
  · constructor
    · intro hno
      by_contra hcon
      exact hno (hmem.mpr hcon)
    · intro horph hin
      exact (hmem.mp hin) horph
  · intro hc
    refine hmem.mpr ?_
    rintro ⟨h | h, _⟩ <;> rw [hc] at h <;> cases h
  · intro hc
    refine hmem.mpr ?_
    rintro ⟨h | h, _⟩ <;> rw [hc] at h <;> cases h

/-- Claim C7 witness: in a concrete table with an aged PROCESSING row
and an aged UPLOADING row, the UPLOADING row is deleted exactly per the
amended characterization. -/
theorem sweep_deletes_iff_witness :
    agedUploadingRow ∈ sweepDb ∧
    ((agedUploadingRow ∉ cleanupOrphanedUploads 24 100 sweepDb ↔
        ((agedUploadingRow.status = UStatus.uploading ∨
            agedUploadingRow.status = UStatus.failed) ∧
          agedUploadingRow.updatedAt + 24 < 100)) ∧
      (agedUploadingRow.status = UStatus.completed →
        agedUploadingRow ∈ cleanupOrphanedUploads 24 100 sweepDb) ∧
      (agedUploadingRow.status = UStatus.processing →
        agedUploadingRow ∈ cleanupOrphanedUploads 24 100 sweepDb)) :=
  ⟨by decide,
    sweep_deletes_iff_aged_uploading_or_failed 24 100 sweepDb agedUploadingRow (by decide)⟩

/-- Claim C8 counterexample: the claim bounds the listing by
`maxEntries` for *every* bound.  The loop checks the bound only after
pushing, so with `maxEntries = 0` a ZIP with one top-level entry yields
a one-element listing, exceeding the bound. -/
theorem peek_bound_zero_cex :
    ¬ ((peekZipContents 0 (ZipInput.zip ["a.txt"])).length ≤ 0) := by decide

/-- Claim C8 (amended): for every input and every bound
`maxEntries ≥ 1`, `peekZipContents` returns at most `maxEntries`
top-level entry names, and on input that is not a recognized ZIP it
returns the empty list — never an error (the function resolves a value
on every path; `yauzl` failures map to `[]`). -/
theorem peek_bounded (maxEntries : Nat) (input : ZipInput) (hm : 1 ≤ maxEntries) :
    (peekZipContents maxEntries input).length ≤ maxEntries ∧
    peekZipContents maxEntries ZipInput.notZip = [] := by
  refine ⟨?_, rfl⟩
  cases input with
  | notZip => simpa [peekZipContents] using hm
  | zip es =>
    exact peekLoop_length_le maxEntries es [] (by simpa using hm)

/-- Claim C8 witness: bound 2 on a ZIP with five top-level entries. -/
theorem peek_bounded_witness :
    1 ≤ 2 ∧
    ((peekZipContents 2
        (ZipInput.zip ["a.txt", "b/", "c.txt", "d.txt", "e.txt"])).length ≤ 2 ∧
      peekZipContents 2 ZipInput.notZip = []) :=
  ⟨by decide,
    peek_bounded 2 (ZipInput.zip ["a.txt", "b/", "c.txt", "d.txt", "e.txt"]) (by decide)⟩

/-- Claim C10: for a non-COMPLETED session whose chunk records all lie
in `[0, totalChunks)` (as created by init) and whose temp file does not
exceed `totalSize ≤ totalChunks × chunkSize`, a chunk request with an
index `≥ totalChunks` and a non-empty body is not rejected: the server
answers `{success: true, index}`, performs the positional write at
`index × chunkSize` — growing the temp file strictly past `totalSize` —
and no chunk record changes (none exists for that index). -/
theorem chunk_out_of_range_accepted (s : Session) (idx : Nat) (data : List Nat)
    (hst : s.status ≠ UStatus.completed)
    (hidx : s.totalChunks ≤ idx)
    (hrecs : ∀ p ∈ s.chunks, p.1 < s.totalChunks)
    (hsz : s.totalSize ≤ s.totalChunks * CHUNK_SIZE)
    (hfile : s.tempFile.length ≤ s.totalSize)
    (hdata : data ≠ []) :
    ((handleChunk s idx data).2) = ⟨true, idx, "Chunk uploaded successfully"⟩ ∧
    ((handleChunk s idx data).1).chunks = s.chunks ∧
    ((handleChunk s idx data).1).tempFile
      = writeAt s.tempFile (idx * CHUNK_SIZE) data ∧
    s.totalSize < ((handleChunk s idx data).1).tempFile.length := by
  have habs : ∀ p ∈ s.chunks, p.1 ≠ idx := by
    intro p hp
    have := hrecs p hp
    omega
  have hnone : lookupChunk s.chunks idx = none := lookupChunk_eq_none s.chunks idx habs
  have hne : lookupChunk s.chunks idx ≠ some CStatus.received := by
    rw [hnone]
    intro hcon
    cases hcon
  have hfst : (handleChunk s idx data).1
      = { s with
            tempFile := writeAt s.tempFile (idx * CHUNK_SIZE) data,
            chunks := markReceived s.chunks idx } := by
    simp only [handleChunk]
    rw [if_neg hst, if_neg hne]
  have hsnd : (handleChunk s idx data).2
      = ⟨true, idx, "Chunk uploaded successfully"⟩ := by
    simp only [handleChunk]
    rw [if_neg hst, if_neg hne]
  refine ⟨hsnd, ?_, ?_, ?_⟩
  · rw [hfst]
    exact markReceived_eq_of_absent s.chunks idx habs
  · rw [hfst]
  · rw [hfst]
    show s.totalSize < (writeAt s.tempFile (idx * CHUNK_SIZE) data).length
    rw [writeAt_length]
    have hdlen : 0 < data.length := List.length_pos.mpr hdata
    have hmul : s.totalChunks * CHUNK_SIZE ≤ idx * CHUNK_SIZE :=
      Nat.mul_le_mul_right CHUNK_SIZE hidx
    omega

/-- Claim C10 witness: index 1 with a one-byte body on a concrete
one-chunk session of `totalSize = 10`. -/
theorem chunk_out_of_range_accepted_witness :
    (oneChunkSess.status ≠ UStatus.completed ∧
      oneChunkSess.totalChunks ≤ 1 ∧
      (∀ p ∈ oneChunkSess.chunks, p.1 < oneChunkSess.totalChunks) ∧
      oneChunkSess.totalSize ≤ oneChunkSess.totalChunks * CHUNK_SIZE ∧
      oneChunkSess.tempFile.length ≤ oneChunkSess.totalSize ∧
      ([7] : List Nat) ≠ []) ∧
    (((handleChunk oneChunkSess 1 [7]).2)
        = ⟨true, 1, "Chunk uploaded successfully"⟩ ∧
      ((handleChunk oneChunkSess 1 [7]).1).chunks = oneChunkSess.chunks ∧
      ((handleChunk oneChunkSess 1 [7]).1).tempFile
        = writeAt oneChunkSess.tempFile (1 * CHUNK_SIZE) [7] ∧
      oneChunkSess.totalSize < ((handleChunk oneChunkSess 1 [7]).1).tempFile.length) :=
  ⟨⟨by decide, by decide, by decide, by decide, by decide, by decide⟩,
    chunk_out_of_range_accepted oneChunkSess 1 [7]
      (by decide) (by decide) (by decide) (by decide) (by decide) (by decide)⟩

end BigFileBuddy
